import Mathlib

/-
Shallow embedding of the obsidian-like-autocomplete language server core
(src/src/server.ts and the unnamed near-duplicate source file):
the note index (addNoteToList), the heading extractor
(findHeadingsInDocument), the backward link-context scan inside the
onCompletion handler, the two completion-result builders, the
onCompletionResolve handler, and the getAllFiles directory walk.
-/

namespace ObsidianAutocomplete

/-- Heading record from the source: a title and a level. -/
structure Heading where
  title : String
  level : Nat
  deriving DecidableEq, Repr

/-- Note record from the source: a derived filename and its headings. -/
structure Note where
  filename : String
  headings : List Heading
  deriving DecidableEq, Repr

/-- Core of addNoteToList after the filename has been derived: find the
first note with this filename and replace its headings wholesale, or
append a fresh note at the end when none matches. -/
def addNoteToList : List Note → String → List Heading → List Note
  | [], filename, hs => [{ filename := filename, headings := hs }]
  | note :: rest, filename, hs =>
    if note.filename = filename then { filename := filename, headings := hs } :: rest
    else note :: addNoteToList rest filename hs

/-- A sequence of upserts applied to the initially empty global notes list. -/
def upsertAll (ops : List (String × List Heading)) : List Note :=
  ops.foldl (fun idx op => addNoteToList idx op.1 op.2) []

/- ----------------------------------------------------------------
HeadingExtractor: findHeadingsInDocument splits on newline and runs the
shared global regex /^(#+) (.+)/g over each line with re.exec, keeping
the regex object state (lastIndex) between lines, then strips the first
single hash occurrence and trims. -/

/-- JS String.split on the newline character, on a char list. -/
def splitOnNewline : List Char → List (List Char)
  | [] => [[]]
  | c :: rest =>
    let r := splitOnNewline rest
    if c = '\n' then [] :: r
    else
      match r with
      | [] => [[c]]
      | l :: ls => (c :: l) :: ls

/-- Whether the regex metacharacter dot matches this character
(everything but a JS line terminator). -/
def isDotChar (c : Char) : Bool :=
  !(c = '\n' || c = '\r' || c = ' ' || c = ' ')

/-- Number of leading hash characters of a line. -/
def countLeadingHashes : List Char → Nat
  | '#' :: rest => countLeadingHashes rest + 1
  | _ => 0

/-- Longest run of dot-matchable characters at the front of the list
(the greedy match of the group made of a dot and a plus). -/
def takeDotRun : List Char → List Char
  | [] => []
  | c :: rest => if isDotChar c then c :: takeDotRun rest else []

/-- One re.exec call of the shared global regex /^(#+) (.+)/g against one
line, given the mutable lastIndex the regex object carries over from the
previous call. With the global flag, matching starts at lastIndex; the
caret can only match at offset 0, so a nonzero lastIndex yields null
(and resets lastIndex to 0). On success lastIndex becomes the match
length. Returns (full match if any, updated lastIndex). -/
def execHeadingRegex (line : List Char) (lastIndex : Nat) : Option (List Char) × Nat :=
  if lastIndex ≠ 0 then (none, 0)
  else
    let k := countLeadingHashes line
    if k = 0 then (none, 0)
    else
      match line.drop k with
      | ' ' :: rest =>
        let content := takeDotRun rest
        if content.isEmpty then (none, 0)
        else
          let m := line.take k ++ ' ' :: content
          (some m, m.length)
      | _ => (none, 0)

/-- JS String.replace with the one-character search string made of a
single hash: removes only the first occurrence. -/
def replaceFirstHash : List Char → List Char
  | [] => []
  | c :: rest => if c = '#' then rest else c :: replaceFirstHash rest

/-- Whitespace for JS String.trim. -/
def isJSSpace (c : Char) : Bool :=
  c = ' ' || c = '\t' || c = '\n' || c = '\r' || c = '\x0b' || c = '\x0c' ||
    c = ' ' || c = ' ' || c = ' ' || c = '﻿'

/-- JS String.trim on a char list. -/
def trimJS (l : List Char) : List Char :=
  ((l.dropWhile isJSSpace).reverse.dropWhile isJSSpace).reverse

/-- The map over the split lines: each line goes through re.exec with the
regex state threaded left to right, then the first hash is removed and
the result trimmed. -/
def execLines : List (List Char) → Nat → List (List Char)
  | [], _ => []
  | line :: rest, li =>
    let step := execHeadingRegex line li
    trimJS (replaceFirstHash (step.1.getD [])) :: execLines rest step.2

/-- findHeadingsInDocument from the source: split the document on
newlines, run the shared regex over each line, strip and trim, and keep
the nonempty results in line order. -/
def findHeadingsInDocument (text : String) : List String :=
  ((execLines (splitOnNewline text.toList) 0).filter (fun l => !l.isEmpty)).map String.mk

/-- addHeadingsToNote from the source turns each extracted title into a
Heading with the level pinned to 1. -/
def extractHeadings (text : String) : List Heading :=
  (findHeadingsInDocument text).map (fun t => { title := t, level := 1 })

/- ----------------------------------------------------------------
LinkContextScanner: the backward do-while loop inside the onCompletion
handler. The loop body examines currentChar = docText[currentPosition]
(undefined when out of range, modelled as none), updates the four flags,
possibly returns, then decrements the position and re-tests; the loop
exits (returning the empty list) only when the freshly read character is
the newline character, since indexOf on undefined is -1. -/

/-- Classification of the cursor context produced by the scan. -/
inductive CompletionContext where
  | NoContext : CompletionContext
  | FileLinkContext : CompletionContext
  | HeadingLinkContext (identifier : String) : CompletionContext
  deriving DecidableEq, Repr

/-- The four mutable locals of the scan loop. -/
structure ScanState where
  afterHeadingMarker : Bool
  headingMarkerPosition : Int
  firstClosingBraceHit : Bool
  firstOpeningBraceHit : Bool
  deriving DecidableEq, Repr

/-- Outcome of one loop-body execution: an early return or the updated
flags for the next iteration. -/
inductive StepResult where
  | done (res : CompletionContext) : StepResult
  | next (st : ScanState) : StepResult
  deriving DecidableEq, Repr

/-- JS string indexing docText[pos]: undefined (none) for a negative or
out-of-range index. -/
def charAt (text : List Char) (pos : Int) : Option Char :=
  if pos < 0 then none else text.get? pos.toNat

/-- JS String.substring: both arguments clamped into the string and
swapped when given in reverse order. -/
def substringJS (text : List Char) (a b : Int) : List Char :=
  let len : Int := text.length
  let x := (max 0 (min a len)).toNat
  let y := (max 0 (min b len)).toNat
  if x ≤ y then (text.take y).drop x else (text.take x).drop y

/-- One execution of the loop body at position pos reading cur. -/
def scanStep (text : List Char) (pos : Int) (cur : Option Char) (st : ScanState) : StepResult :=
  if cur = some '#' then
    .next { st with afterHeadingMarker := true, headingMarkerPosition := pos }
  else if cur = some '[' then
    if st.firstOpeningBraceHit then
      .done (if st.afterHeadingMarker then
          .HeadingLinkContext (String.mk (substringJS text (pos + 2) st.headingMarkerPosition))
        else .FileLinkContext)
    else .next { st with firstOpeningBraceHit := true }
  else if cur = some ']' then
    if st.firstClosingBraceHit then .done .NoContext
    else .next { st with firstClosingBraceHit := true }
  else .next { st with firstClosingBraceHit := false, firstOpeningBraceHit := false }

/-- The do-while loop, fuel-indexed: none means the given number of
iterations did not suffice for the loop to finish (so a result of none
for every fuel is a non-terminating run of the source loop). -/
def scanLoop (text : List Char) : Nat → Int → Option Char → ScanState → Option CompletionContext
  | 0, _, _, _ => none
  | fuel + 1, pos, cur, st =>
    match scanStep text pos cur st with
    | .done res => some res
    | .next st2 =>
      let cur2 := charAt text (pos - 1)
      if cur2 = some '\n' then some .NoContext
      else scanLoop text fuel (pos - 1) cur2 st2

/-- Initial values of the four flags. -/
def initScanState : ScanState :=
  { afterHeadingMarker := false, headingMarkerPosition := 0,
    firstClosingBraceHit := false, firstOpeningBraceHit := false }

/-- The scan as entered by onCompletion: the first examined character is
docText[positionOffset] itself. -/
def scanFrom (text : List Char) (cursor : Nat) (fuel : Nat) : Option CompletionContext :=
  scanLoop text fuel cursor (charAt text cursor) initScanState

/-- Entry point with enough fuel to capture every terminating run: a
terminating run returns while the position is at least -1, hence within
cursor + 2 iterations. -/
def linkContextScanner (s : String) (cursor : Nat) : Option CompletionContext :=
  scanFrom s.toList cursor (cursor + 2)

/- ----------------------------------------------------------------
CompletionProvider: the two result builders. The source object literal
in headerCompletionResults carries a property named king (a typo) where
fileCompletionResults carries kind; the record below gives every entry
both optional properties so that a present or absent field is the value
some or none. -/

/-- A completion entry as built by the source: label, an optional kind
property, an optional king property (the misspelling the heading branch
actually writes), and the numeric data token. -/
structure CompletionEntry where
  label : String
  kind : Option Nat
  king : Option Nat
  data : Nat
  deriving DecidableEq, Repr

/-- CompletionItemKind.Text of the LSP enumeration. -/
def completionItemKindText : Nat := 1

/-- headerCompletionResults: headings of the first note with the given
filename, in stored order; the object literal writes king, not kind. -/
def headerCompletionResults (filename : String) (notes : List Note) : List CompletionEntry :=
  match notes.find? (fun note => note.filename == filename) with
  | some note =>
    note.headings.enum.map (fun p =>
      { label := p.2.title, kind := none, king := some completionItemKindText, data := p.1 })
  | none => []

/-- fileCompletionResults: one entry per note in index order. -/
def fileCompletionResults (notes : List Note) : List CompletionEntry :=
  notes.enum.map (fun p =>
    { label := p.2.filename, kind := some completionItemKindText, king := none, data := p.1 })

/- ----------------------------------------------------------------
onCompletionResolve. -/

/-- A completion item as seen by the resolve handler. -/
structure ResolveItem where
  label : String
  kind : Option Nat
  data : Int
  detail : Option String
  documentation : Option String
  deriving DecidableEq, Repr

/-- The resolve handler: hardcoded demo details for the data tokens 1
and 2, identity otherwise. -/
def onCompletionResolve (item : ResolveItem) : ResolveItem :=
  if item.data = 1 then
    { item with detail := some "TypeScript details",
                documentation := some "TypeScript documentation" }
  else if item.data = 2 then
    { item with detail := some "JavaScript details",
                documentation := some "JavaScript documentation" }
  else item

/- ----------------------------------------------------------------
FileDiscovery: getAllFiles of the unnamed source file. The filesystem
is embedded as a pure tree; readdirSync order is the child list order. -/

/-- A directory entry: a plain file or a directory, each possibly a
symbolic link. -/
inductive FSNode where
  | file (name : String) (isSymlink : Bool) : FSNode
  | dir (name : String) (isSymlink : Bool) (children : List FSNode) : FSNode

/-- Whether the pattern list is an initial segment of the other list. -/
def beginsWith : List Char → List Char → Bool
  | [], _ => true
  | _ :: _, [] => false
  | p :: ps, c :: cs => p = c && beginsWith ps cs

/-- JS String.startsWith. -/
def strStartsWith (s pat : String) : Bool :=
  beginsWith pat.toList s.toList

/-- JS String.endsWith. -/
def strEndsWith (s pat : String) : Bool :=
  beginsWith pat.toList.reverse s.toList.reverse

mutual

/-- getAllFiles of the unnamed source file: empty result once the counter
exceeds 1000, otherwise the forEach loop over the directory entries. -/
def getAllFiles (dir : String) (entries : List FSNode) (count : Nat) : List String :=
  if count > 1000 then []
  else walkEntries (if strEndsWith dir "/" then dir else dir ++ "/") entries [] count

/-- The forEach body of getAllFiles: hidden entries and symbolic links
are skipped, directories are recursed into with the counter inflated by
the accumulated result length, and markdown files are accumulated. -/
def walkEntries (dirSlash : String) (entries : List FSNode) (acc : List String) (count : Nat) : List String :=
  match entries with
  | [] => acc
  | FSNode.file name sym :: rest =>
    if strStartsWith name "." || sym then walkEntries dirSlash rest acc count
    else if strEndsWith name ".md" then walkEntries dirSlash rest (acc ++ [dirSlash ++ name]) count
    else walkEntries dirSlash rest acc count
  | FSNode.dir name sym children :: rest =>
    if strStartsWith name "." || sym then walkEntries dirSlash rest acc count
    else
      walkEntries dirSlash rest
        (acc ++ getAllFiles (dirSlash ++ name) children (acc.length + (count + 1)))
        (count + 1)

end

/- ----------------------------------------------------------------
Helper lemmas. -/

/-- Indexing at a negative position yields none. -/
theorem charAt_neg (text : List Char) (pos : Int) (h : pos < 0) : charAt text pos = none := by
  simp [charAt, h]

/-- Once the position is negative every character read is none, the else
branch fires forever, and the loop exhausts any amount of fuel: the
source loop never exits past the start of the buffer. -/
theorem scanLoop_offscreen (text : List Char) :
    ∀ (fuel : Nat) (pos : Int), pos < 0 → ∀ st : ScanState, scanLoop text fuel pos none st = none := by
  intro fuel
  induction fuel with
  | zero => intro pos _ st; rfl
  | succ n ih =>
    intro pos hpos st
    have hstep : scanStep text pos none st =
        StepResult.next { st with firstClosingBraceHit := false, firstOpeningBraceHit := false } := by
      simp [scanStep]
    have hchar : charAt text (pos - 1) = none := charAt_neg text _ (by omega)
    simp only [scanLoop, hstep, hchar]
    rw [if_neg (by simp)]
    exact ih (pos - 1) (by omega) _

/-- With both bracket flags still false the loop body never returns:
every branch continues with some updated flags. -/
theorem scanStep_no_flags (text : List Char) (pos : Int) (cur : Option Char) (st : ScanState)
    (ho : st.firstOpeningBraceHit = false) (hc : st.firstClosingBraceHit = false) :
    ∃ st2, scanStep text pos cur st = StepResult.next st2 := by
  unfold scanStep
  split_ifs <;> first | exact ⟨_, rfl⟩ | simp_all

/-- Every read over the text abc yields none or one of its three
letters. -/
theorem charAt_abc (pos : Int) :
    charAt ("abc".toList) pos = none ∨ charAt ("abc".toList) pos = some 'a' ∨
      charAt ("abc".toList) pos = some 'b' ∨ charAt ("abc".toList) pos = some 'c' := by
  unfold charAt
  split_ifs with h
  · exact Or.inl rfl
  · have hcases : pos.toNat = 0 ∨ pos.toNat = 1 ∨ pos.toNat = 2 ∨ 3 ≤ pos.toNat := by omega
    rcases hcases with h0 | h0 | h0 | h0
    · rw [h0]; exact Or.inr (Or.inl rfl)
    · rw [h0]; exact Or.inr (Or.inr (Or.inl rfl))
    · rw [h0]; exact Or.inr (Or.inr (Or.inr rfl))
    · exact Or.inl (List.get?_eq_none.mpr (by simpa using h0))

/-- On the text abc (no trigger characters, no newline) the loop never
finishes, from any start position and any flag state. -/
theorem scanLoop_abc :
    ∀ (fuel : Nat) (pos : Int) (st : ScanState),
      scanLoop ("abc".toList) fuel pos (charAt ("abc".toList) pos) st = none := by
  intro fuel
  induction fuel with
  | zero => intro pos st; rfl
  | succ n ih =>
    intro pos st
    have hbenign : ∀ c, charAt ("abc".toList) pos = c →
        scanStep ("abc".toList) pos c st =
          StepResult.next { st with firstClosingBraceHit := false, firstOpeningBraceHit := false } := by
      intro c hc
      rcases charAt_abc pos with h | h | h | h <;> rw [hc] at h <;> subst h <;> simp [scanStep]
    have hnl : ¬ charAt ("abc".toList) (pos - 1) = some '\n' := by
      rcases charAt_abc (pos - 1) with h | h | h | h <;> rw [h] <;> simp
    simp only [scanLoop, hbenign _ rfl]
    rw [if_neg hnl]
    exact ih (pos - 1) _

/-- Filenames appearing after an upsert: the upserted one or one that was
already there. -/
theorem mem_filename_addNoteToList {idx : List Note} {fn x : String} {hs : List Heading}
    (hx : x ∈ (addNoteToList idx fn hs).map Note.filename) :
    x = fn ∨ x ∈ idx.map Note.filename := by
  induction idx with
  | nil =>
    simp [addNoteToList] at hx
    exact Or.inl hx
  | cons n rest ih =>
    by_cases h : n.filename = fn
    · simp only [addNoteToList, if_pos h, List.map_cons, List.mem_cons] at hx
      rcases hx with h1 | h1
      · exact Or.inl h1
      · exact Or.inr (List.mem_cons_of_mem _ h1)
    · simp only [addNoteToList, if_neg h, List.map_cons, List.mem_cons] at hx
      rcases hx with h1 | h1
      · exact Or.inr (by simp [h1])
      · rcases ih h1 with h2 | h2
        · exact Or.inl h2
        · exact Or.inr (List.mem_cons_of_mem _ h2)

/-- An upsert preserves distinctness of the identifiers. -/
theorem nodup_filename_addNoteToList {idx : List Note} {fn : String} {hs : List Heading}
    (hd : (idx.map Note.filename).Nodup) :
    ((addNoteToList idx fn hs).map Note.filename).Nodup := by
  induction idx with
  | nil => simp [addNoteToList]
  | cons n rest ih =>
    rw [List.map_cons, List.nodup_cons] at hd
    by_cases h : n.filename = fn
    · simp only [addNoteToList, if_pos h, List.map_cons, List.nodup_cons]
      exact ⟨h ▸ hd.1, hd.2⟩
    · simp only [addNoteToList, if_neg h, List.map_cons, List.nodup_cons]
      refine ⟨fun hmem => ?_, ih hd.2⟩
      rcases mem_filename_addNoteToList hmem with h2 | h2
      · exact h h2
      · exact hd.1 h2

/-- A list containing no note with the given filename filters to nothing
on that filename. -/
theorem filter_filename_eq_nil {rest : List Note} {fn : String}
    (h : fn ∉ rest.map Note.filename) :
    rest.filter (fun n => n.filename == fn) = [] := by
  induction rest with
  | nil => rfl
  | cons n rs ih =>
    simp only [List.map_cons, List.mem_cons] at h
    push_neg at h
    have hne : (n.filename == fn) = false := by
      simp only [beq_eq_false_iff_ne, ne_eq]
      exact fun he => h.1 he.symm
    simp [List.filter_cons, hne, ih h.2]

/-- After an upsert into an index with distinct identifiers, the notes
carrying the upserted identifier are exactly the single upserted note. -/
theorem filter_addNoteToList_self {idx : List Note} {fn : String} {hs : List Heading}
    (hd : (idx.map Note.filename).Nodup) :
    (addNoteToList idx fn hs).filter (fun n => n.filename == fn) =
      [{ filename := fn, headings := hs }] := by
  induction idx with
  | nil => simp [addNoteToList]
  | cons n rest ih =>
    rw [List.map_cons, List.nodup_cons] at hd
    by_cases h : n.filename = fn
    · simp only [addNoteToList, if_pos h]
      have hnil : rest.filter (fun m => m.filename == fn) = [] :=
        filter_filename_eq_nil (h ▸ hd.1)
      simp [List.filter_cons, hnil]
    · simp only [addNoteToList, if_neg h]
      have hne : (n.filename == fn) = false := by
        simp only [beq_eq_false_iff_ne, ne_eq]
        exact h
      simp [List.filter_cons, hne, ih hd.2]

/-- Upserting an absent identifier appends the new note at the end. -/
theorem addNoteToList_absent {idx : List Note} {fn : String} {hs : List Heading}
    (h : fn ∉ idx.map Note.filename) :
    addNoteToList idx fn hs = idx ++ [{ filename := fn, headings := hs }] := by
  induction idx with
  | nil => rfl
  | cons n rest ih =>
    simp only [List.map_cons, List.mem_cons] at h
    push_neg at h
    have hne : n.filename ≠ fn := fun he => h.1 he.symm
    simp [addNoteToList, hne, ih h.2]

/-- Any upsert sequence starting from the empty index keeps identifiers
distinct. -/
theorem nodup_upsertAll (ops : List (String × List Heading)) :
    ((upsertAll ops).map Note.filename).Nodup := by
  have aux : ∀ (l : List (String × List Heading)) (idx : List Note),
      (idx.map Note.filename).Nodup →
      ((l.foldl (fun a op => addNoteToList a op.1 op.2) idx).map Note.filename).Nodup := by
    intro l
    induction l with
    | nil => intro idx h; simpa using h
    | cons op rest ih =>
      intro idx h
      exact ih _ (nodup_filename_addNoteToList h)
  simpa [upsertAll] using aux ops [] (by simp)

/- ----------------------------------------------------------------
Claim theorems. -/

/-- C1: the claim says a backward scan that reaches the start of the
buffer terminates with NoContext and never reads before offset 0; the
code instead never exits. With the cursor at offset 0 the loop, for
every text, exhausts any amount of fuel (the first part), and likewise
with the cursor at the end of the one-line text abc, where the scan
walks past offset 0 (the second part): the exit test compares the
out-of-range read (undefined) against the newline list and never fires,
so the source loop reads offsets -1, -2, ... forever instead of
returning the empty completion list. -/
theorem scan_at_buffer_start_never_terminates :
    (∀ (text : List Char) (fuel : Nat), scanFrom text 0 fuel = none)
    ∧ (∀ fuel : Nat, scanFrom ("abc".toList) 3 fuel = none) := by
  constructor
  · intro text fuel
    cases fuel with
    | zero => rfl
    | succ n =>
      obtain ⟨st2, hstep⟩ := scanStep_no_flags text 0 (charAt text 0) initScanState rfl rfl
      show scanLoop text (n + 1) 0 (charAt text 0) initScanState = none
      have hchar : charAt text (-1 : Int) = none := charAt_neg text _ (by omega)
      simp only [scanLoop, hstep, Nat.cast_zero, zero_sub, hchar]
      rw [if_neg (by simp)]
      exact scanLoop_offscreen text n _ (by omega) st2
  · intro fuel
    exact scanLoop_abc fuel 3 initScanState

/-- C2: the claim pins the titles A, B, C for the document made of the
lines hash-A, double-hash-B, text, and triple-hash-C with two trailing
spaces, and says titles have all leading hashes and whitespace removed.
The code instead produces A and a mangled double-hash-C title: the
shared global regex keeps its lastIndex between lines so the B line is
skipped, and replace removes only the first hash. Level 1 per entry is
as claimed. -/
theorem findHeadings_diverges_on_pinned_example :
    extractHeadings "# A\n## B\ntext\n### C  " =
      [{ title := "A", level := 1 }, { title := "## C", level := 1 }]
    ∧ findHeadingsInDocument "# A\n## B\ntext\n### C  " ≠ ["A", "B", "C"] :=
  ⟨rfl, by decide⟩

/-- C3: the note index holds at most one note per identifier after any
upsert sequence from the empty index; upserting the same identifier
twice leaves exactly one note carrying the most recent heading list,
replaced wholesale; and an absent identifier is appended at the end. -/
theorem addNoteToList_upsert_semantics :
    (∀ ops : List (String × List Heading), ((upsertAll ops).map Note.filename).Nodup)
    ∧ (∀ (idx : List Note) (fn : String) (h1 h2 : List Heading),
        (idx.map Note.filename).Nodup →
        (addNoteToList (addNoteToList idx fn h1) fn h2).filter (fun n => n.filename == fn) =
          [{ filename := fn, headings := h2 }])
    ∧ (∀ (idx : List Note) (fn : String) (hs : List Heading),
        fn ∉ idx.map Note.filename →
        addNoteToList idx fn hs = idx ++ [{ filename := fn, headings := hs }]) :=
  ⟨nodup_upsertAll,
   fun _ _ _ _ hd => filter_addNoteToList_self (nodup_filename_addNoteToList hd),
   fun _ _ _ h => addNoteToList_absent h⟩

/-- C3 witness: a concrete double upsert of identifier a and an append
of the absent identifier a behind b. -/
theorem addNoteToList_upsert_semantics_witness :
    ((upsertAll [("a", []), ("a", [{ title := "H", level := 1 }])]).map Note.filename).Nodup
    ∧ (addNoteToList (addNoteToList [] "a" []) "a" [{ title := "H", level := 1 }]).filter
        (fun n => n.filename == "a") =
      [{ filename := "a", headings := [{ title := "H", level := 1 }] }]
    ∧ addNoteToList [{ filename := "b", headings := [] }] "a" [] =
      [{ filename := "b", headings := [] }, { filename := "a", headings := [] }] :=
  ⟨addNoteToList_upsert_semantics.1 _,
   addNoteToList_upsert_semantics.2.1 [] "a" [] _ (by simp),
   addNoteToList_upsert_semantics.2.2 _ "a" [] (by decide)⟩

/-- C4: reading a second consecutive open bracket ends the scan; with a
heading marker seen, the identifier is the substring from two past the
position of that second-read (leftmost) bracket up to the marker offset,
as HeadingLinkContext, else FileLinkContext. Concretely, the text
See-open-open-Note-hash-Head at cursor 16 yields the heading context for
Note, and See-open-open-Note at cursor 10 yields the file context. -/
theorem scan_double_open_bracket_classifies :
    (∀ (text : List Char) (fuel : Nat) (pos : Int) (st : ScanState),
        st.firstOpeningBraceHit = true →
        scanLoop text (fuel + 1) pos (some '[') st =
          some (if st.afterHeadingMarker then
              CompletionContext.HeadingLinkContext
                (String.mk (substringJS text (pos + 2) st.headingMarkerPosition))
            else CompletionContext.FileLinkContext))
    ∧ linkContextScanner "See [[Note#Head" 16 =
        some (CompletionContext.HeadingLinkContext "Note")
    ∧ linkContextScanner "See [[Note" 10 = some CompletionContext.FileLinkContext := by
  refine ⟨?_, rfl, rfl⟩
  intro text fuel pos st h
  simp [scanLoop, scanStep, h]

/-- C4 witness: one loop step on the empty text at position 0 reading an
open bracket with the open-bracket flag already set returns the file
context. -/
theorem scan_double_open_bracket_classifies_witness :
    scanLoop [] 1 0 (some '[')
        { afterHeadingMarker := false, headingMarkerPosition := 0,
          firstClosingBraceHit := false, firstOpeningBraceHit := true } =
      some CompletionContext.FileLinkContext :=
  scan_double_open_bracket_classifies.1 [] 0 0
    { afterHeadingMarker := false, headingMarkerPosition := 0,
      firstClosingBraceHit := false, firstOpeningBraceHit := true } rfl

/-- C6: reading a second consecutive close bracket ends the scan with
NoContext; concretely the closed-link text open-open-Note-close-close
followed by more, at cursor 13, yields NoContext. -/
theorem scan_double_close_bracket_no_context :
    (∀ (text : List Char) (fuel : Nat) (pos : Int) (st : ScanState),
        st.firstClosingBraceHit = true →
        scanLoop text (fuel + 1) pos (some ']') st = some CompletionContext.NoContext)
    ∧ linkContextScanner "[[Note]] more" 13 = some CompletionContext.NoContext := by
  refine ⟨?_, rfl⟩
  intro text fuel pos st h
  simp [scanLoop, scanStep, h]

/-- C6 witness: one loop step reading a close bracket with the
close-bracket flag already set returns NoContext. -/
theorem scan_double_close_bracket_no_context_witness :
    scanLoop [] 1 0 (some ']')
        { afterHeadingMarker := false, headingMarkerPosition := 0,
          firstClosingBraceHit := true, firstOpeningBraceHit := false } =
      some CompletionContext.NoContext :=
  scan_double_close_bracket_no_context.1 [] 0 0
    { afterHeadingMarker := false, headingMarkerPosition := 0,
      firstClosingBraceHit := true, firstOpeningBraceHit := false } rfl

/-- C7: any character other than hash and the two brackets resets both
bracket flags and leaves the heading-marker state untouched; hence in
open-open-A-hash-space-b-space-c with the cursor at the end, the hash
memory survives the interleaved characters and the scan classifies a
heading context for note A. -/
theorem scan_other_char_resets_brackets_only :
    (∀ (text : List Char) (pos : Int) (c : Char) (st : ScanState),
        c ≠ '#' → c ≠ '[' → c ≠ ']' →
        scanStep text pos (some c) st =
          StepResult.next
            ⟨st.afterHeadingMarker, st.headingMarkerPosition, false, false⟩)
    ∧ linkContextScanner "[[A# b c" 8 = some (CompletionContext.HeadingLinkContext "A") := by
  refine ⟨?_, rfl⟩
  intro text pos c st h1 h2 h3
  simp [scanStep, h1, h2, h3]

/-- C7 witness: the letter x steps a fully set flag state to one with
only the bracket flags cleared, the marker data kept. -/
theorem scan_other_char_resets_brackets_only_witness :
    scanStep [] 0 (some 'x')
        { afterHeadingMarker := true, headingMarkerPosition := 7,
          firstClosingBraceHit := true, firstOpeningBraceHit := true } =
      StepResult.next
        { afterHeadingMarker := true, headingMarkerPosition := 7,
          firstClosingBraceHit := false, firstOpeningBraceHit := false } :=
  scan_other_char_resets_brackets_only.1 [] 0 'x'
    { afterHeadingMarker := true, headingMarkerPosition := 7,
      firstClosingBraceHit := true, firstOpeningBraceHit := true }
    (by decide) (by decide) (by decide)

/-- C9: every hash read during the backward scan overwrites the marker
offset, so with several hashes on the line the leftmost one (read last)
bounds the identifier; concretely open-open-A-hash-B-hash-C at cursor 7
yields the heading context for A, not for A-hash-B. -/
theorem scan_hash_overwrites_marker_offset :
    (∀ (text : List Char) (pos : Int) (st : ScanState),
        scanStep text pos (some '#') st =
          StepResult.next { st with afterHeadingMarker := true, headingMarkerPosition := pos })
    ∧ linkContextScanner "[[A#B#C" 7 = some (CompletionContext.HeadingLinkContext "A") := by
  refine ⟨?_, rfl⟩
  intro text pos st
  simp [scanStep]

/-- C8: the claim says every produced entry has a label, a kind equal to
the text completion kind, and a numeric data token. The file-completion
entries do, but the heading-completion branch writes its kind under the
misspelled property king and so produces entries with no kind field at
all: on a one-note index the single heading entry carries kind none. -/
theorem completion_entries_heading_branch_misspells_kind :
    headerCompletionResults "N" [{ filename := "N", headings := [{ title := "H", level := 1 }] }] =
      [{ label := "H", kind := none, king := some completionItemKindText, data := 0 }]
    ∧ fileCompletionResults [{ filename := "N", headings := [{ title := "H", level := 1 }] }] =
      [{ label := "N", kind := some completionItemKindText, king := none, data := 0 }] :=
  ⟨rfl, rfl⟩

/-- C10: the resolve handler is the identity on items whose data token
is neither 1 nor 2, and on tokens 1 and 2 it touches only the detail and
documentation fields, keeping label, kind and data. -/
theorem resolve_frame_property :
    ∀ item : ResolveItem,
      (item.data ≠ 1 → item.data ≠ 2 → onCompletionResolve item = item)
      ∧ ((item.data = 1 ∨ item.data = 2) →
          (onCompletionResolve item).label = item.label
          ∧ (onCompletionResolve item).kind = item.kind
          ∧ (onCompletionResolve item).data = item.data) := by
  intro item
  constructor
  · intro h1 h2
    simp [onCompletionResolve, h1, h2]
  · intro h
    rcases h with h | h <;> simp [onCompletionResolve, h]

/-- C10 witness: a concrete item with data 5 passes through unchanged,
and one with data 1 keeps its label. -/
theorem resolve_frame_property_witness :
    onCompletionResolve
        { label := "L", kind := some 1, data := 5, detail := none, documentation := none } =
      { label := "L", kind := some 1, data := 5, detail := none, documentation := none }
    ∧ (onCompletionResolve
        { label := "L", kind := some 1, data := 1, detail := none, documentation := none }).label =
      "L" :=
  ⟨(resolve_frame_property _).1 (by decide) (by decide),
   ((resolve_frame_property _).2 (Or.inl rfl)).1⟩

/-- C5: the claim says a walk whose counter exceeds the ceiling returns
the partial result set with an explicit truncation indicator. The code
has no indicator in its result type and the over-budget call loses its
whole subtree: over a directory holding the markdown file a.md, the call
with counter 1001 returns the empty list, while the same call with
counter 0 finds the file. -/
theorem getAllFiles_over_ceiling_silently_empty :
    getAllFiles "root" [FSNode.file "a.md" false] 1001 = []
    ∧ getAllFiles "root" [FSNode.file "a.md" false] 0 = ["root/a.md"] := by
  constructor
  · simp [getAllFiles]
  · have e1 : strEndsWith "root" "/" = false := rfl
    have e2 : strStartsWith "a.md" "." = false := rfl
    have e3 : strEndsWith "a.md" ".md" = true := rfl
    simp only [getAllFiles, walkEntries, e1, e2, e3]
    norm_num
    rfl

end ObsidianAutocomplete
